import Mathlib

set_option maxRecDepth 8000

/-!
Shallow embedding of the JSP formatter in `src/formatter.ts`
(class `JspFormattingProvider`).  Text is modelled as `List Char`; every
regular-expression-driven transformation of the source is hand-specialised
to an executable scanning function with the same semantics (global
left-to-right non-overlapping matching, greedy/lazy quantifiers resolved
as the concrete pattern dictates, JS `String.replace` dollar-substitution
for string replacements).  Machine numbers that can go negative
(`level` counters adjusted with `Math.max`) are modelled as `Int`.
-/

namespace JspFmt

/-- The character `` { `` (written via its code point to keep it out of string literals). -/
def lbraceChar : Char := Char.ofNat 123

/-- The character `` } ``. -/
def rbraceChar : Char := Char.ofNat 125

/-- The backquote character, used by JS `String.replace` dollar-substitution. -/
def backtickChar : Char := Char.ofNat 96

/-- The apostrophe character, used by JS `String.replace` dollar-substitution. -/
def aposChar : Char := Char.ofNat 39

/-- ECMAScript whitespace class (regex `\s` and `String.trim`): space, tab, LF,
VT, FF, CR, NBSP, Ogham space mark, the U+2000–U+200A range, LS, PS, NNBSP,
MMSP, ideographic space, BOM. -/
def isJsWs (c : Char) : Bool :=
  c = ' ' || c = '\t' || c = '\n' || c.toNat = 11 || c.toNat = 12 || c = '\r' ||
  c.toNat = 160 || c.toNat = 5760 || (8192 ≤ c.toNat && c.toNat ≤ 8202) ||
  c.toNat = 8232 || c.toNat = 8233 || c.toNat = 8239 || c.toNat = 8287 ||
  c.toNat = 12288 || c.toNat = 65279

/-- ECMAScript word-character class (regex `\w`): ASCII letters, digits, `_`. -/
def isWordChar (c : Char) : Bool :=
  ('a' ≤ c && c ≤ 'z') || ('A' ≤ c && c ≤ 'Z') || ('0' ≤ c && c ≤ '9') || c = '_'

/-- The character class `[a-zA-Z:]` used by the tag-classification regexes. -/
def isTagNameChar (c : Char) : Bool :=
  ('a' ≤ c && c ≤ 'z') || ('A' ≤ c && c ≤ 'Z') || c = ':'

/-- ASCII lowercasing, the canonicalisation performed by the `i` regex flag for
the patterns appearing in the source (which are all ASCII). -/
def lowerAscii (c : Char) : Char :=
  if 'A' ≤ c && c ≤ 'Z' then Char.ofNat (c.toNat + 32) else c

/-- Case-insensitive prefix test (the pattern is given in lowercase). -/
def isPrefixOfCI : List Char → List Char → Bool
  | [], _ => true
  | _ :: _, [] => false
  | p :: ps, c :: cs => p = lowerAscii c && isPrefixOfCI ps cs

/-- Number of occurrences of a character, JS `(s.match(/c/g) || []).length`. -/
def countCh (c : Char) (l : List Char) : Nat := (l.filter (fun d => d = c)).length

/-- JS `String.slice(a, b)` with non-negative clamped end index `b`. -/
def jsSlice (l : List Char) (a b : Nat) : List Char := (l.take b).drop a

/-- Split a list at the first position whose suffix satisfies `pred`:
returns the part before that position and the suffix from it.  This is the
scanning step shared by all the regex-equivalent searches. -/
def splitAtFirst (pred : List Char → Bool) : List Char → Option (List Char × List Char)
  | [] => if pred [] then some ([], []) else none
  | c :: cs =>
    if pred (c :: cs) then some ([], c :: cs)
    else
      match splitAtFirst pred cs with
      | some (a, b) => some (c :: a, b)
      | none => none

/-- Whether `pat` occurs as a contiguous substring of `t` (via the same
scanner used by the region searches). -/
def containsSub (pat t : List Char) : Bool :=
  (splitAtFirst (fun l => pat.isPrefixOf l) t).isSome

/-- `indent.repeat n` on strings: `n` concatenated copies of `ind`. -/
def repIndent (ind : List Char) : Nat → List Char
  | 0 => []
  | n + 1 => ind ++ repIndent ind n

/-- Append `sfx` to the last element of a list of lines
(`lines[lines.length - 1] += sfx`). -/
def appendToLast (sfx : List Char) : List (List Char) → List (List Char)
  | [] => []
  | [x] => [x ++ sfx]
  | x :: xs => x :: appendToLast sfx xs

/-- JS `String.split` at newlines. -/
def splitNl : List Char → List (List Char)
  | [] => [[]]
  | c :: cs =>
    if c = '\n' then [] :: splitNl cs
    else
      match splitNl cs with
      | h :: t => (c :: h) :: t
      | [] => [[c]]

/-- JS `Array.join` with newline separator. -/
def joinNl : List (List Char) → List Char
  | [] => []
  | [x] => x
  | x :: xs => x ++ '\n' :: joinNl xs

/-- Drop leading JS whitespace (`String.trimStart`). -/
def trimStart (l : List Char) : List Char := l.dropWhile isJsWs

/-- Drop trailing JS whitespace (`String.trimEnd`). -/
def trimEnd : List Char → List Char
  | [] => []
  | c :: cs =>
    match trimEnd cs with
    | [] => if isJsWs c then [] else [c]
    | r => c :: r

/-- JS `String.trim()`. -/
def jsTrim (l : List Char) : List Char := trimEnd (trimStart l)

/-- Worker for `collapseWs`: `inRun` records whether the previous character was
whitespace (i.e. whether we are inside a run that already emitted its space). -/
def collapseWsGo (inRun : Bool) : List Char → List Char
  | [] => []
  | c :: cs =>
    if isJsWs c then
      if inRun then collapseWsGo true cs else ' ' :: collapseWsGo true cs
    else c :: collapseWsGo false cs

/-- The regex-replace collapsing whitespace (pattern `\s+`, replacement a
single space, global): every maximal whitespace run becomes one space. -/
def collapseWs (t : List Char) : List Char := collapseWsGo false t

/-- Emit a newline run of length `run`, collapsed to `keep` if it reached `lo`. -/
def nlEmit (lo keep run : Nat) : List Char :=
  List.replicate (if lo ≤ run then keep else run) '\n'

/-- Worker for `collapseNlRuns`; `run` counts the newline run read so far. -/
def collapseNlGo (lo keep run : Nat) : List Char → List Char
  | [] => nlEmit lo keep run
  | c :: cs =>
    if c = '\n' then collapseNlGo lo keep (run + 1) cs
    else nlEmit lo keep run ++ c :: collapseNlGo lo keep 0 cs

/-- The blank-line cap of lines 128–132: every maximal run of at least `lo`
newlines becomes exactly `keep` newlines. -/
def collapseNlRuns (lo keep : Nat) (t : List Char) : List Char := collapseNlGo lo keep 0 t

/-- The final step of line 135 (pattern `\s+$`, replacement one newline): if the text ends with
whitespace, the trailing whitespace run is replaced by a single newline;
otherwise the text is unchanged (note: no newline is added in that case). -/
def trimTrailingToNl (t : List Char) : List Char :=
  match t.getLast? with
  | some c => if isJsWs c then trimEnd t ++ ['\n'] else t
  | none => t

/-- The `FormatOptions` interface (formatter.ts lines 296–302). -/
structure FormatOptions where
  tabSize : Nat
  insertSpaces : Bool
  preserveNewlines : Bool
  maxPreserveNewlines : Nat
  wrapLineLength : Nat

/-- The indent unit: `tabSize` spaces when `insertSpaces`, else one tab. -/
def indentUnit (o : FormatOptions) : List Char :=
  if o.insertSpaces then List.replicate o.tabSize ' ' else ['\t']

/-- The option values used by the concrete evaluations below: the source
defaults (`preserveNewlines` true, `maxPreserveNewlines` 2,
`wrapLineLength` 120) with 4-space indentation. -/
def stdOpts : FormatOptions :=
  { tabSize := 4, insertSpaces := true, preserveNewlines := true,
    maxPreserveNewlines := 2, wrapLineLength := 120 }

/-! ### Structural Indenter (formatter.ts lines 140–178) -/

/-- The literal alternatives of the negative lookahead in the `openTags` regex
(line 147): tag names after `<` that must NOT begin the line for it to count
as an indent-increasing opening tag. -/
def openExclNames : List (List Char) :=
  [("/".data), ("!".data), ("br".data), ("hr".data), ("img".data), ("input".data),
   ("link".data), ("meta".data), ("area".data), ("base".data), ("col".data),
   ("embed".data), ("param".data), ("source".data), ("track".data), ("wbr".data),
   ("jsp:include".data), ("jsp:forward".data), ("jsp:param".data),
   ("jsp:setProperty".data), ("jsp:getProperty".data), ("jsp:useBean".data),
   ("c:out".data), ("c:set".data), ("c:remove".data), ("c:param".data),
   ("c:redirect".data),
   ("fmt:message".data), ("fmt:formatNumber".data), ("fmt:formatDate".data),
   ("fmt:setLocale".data), ("fmt:setBundle".data), ("fmt:requestEncoding".data),
   ("fmt:setTimeZone".data),
   ("sql:param".data), ("sql:dateParam".data), ("sql:setDataSource".data)]

/-- The alternatives of the `jspOpenTags` regex (line 152): block-scoped
custom-tag names. -/
def jspOpenNames : List (List Char) :=
  [("c:if".data), ("c:choose".data), ("c:when".data), ("c:otherwise".data),
   ("c:forEach".data), ("c:forTokens".data), ("c:catch".data), ("c:import".data),
   ("c:url".data),
   ("fmt:bundle".data), ("fmt:timeZone".data),
   ("sql:query".data), ("sql:update".data), ("sql:transaction".data),
   ("x:parse".data), ("x:if".data), ("x:choose".data), ("x:when".data),
   ("x:otherwise".data), ("x:forEach".data), ("x:transform".data),
   ("jsp:include".data), ("jsp:forward".data), ("jsp:useBean".data),
   ("jsp:element".data), ("jsp:body".data), ("jsp:attribute".data)]

/-- Matcher for the regex tail `[^>]*[^\/]>$`: the rest of the line after the
first tag-name character must consist of a `>`-free span, one character that
is not `/`, and a final `>` (checked from the reversed list). -/
def shapeTail (s : List Char) : Bool :=
  match s.reverse with
  | '>' :: d :: rest => !(d = '/') && rest.all (fun c => !(c = '>'))
  | _ => false

/-- Matcher for `[a-zA-Z:][^>]*[^\/]>$` (the body of `openTags` after `<`). -/
def openShapeOk : List Char → Bool
  | c :: rest => isTagNameChar c && shapeTail rest
  | [] => false

/-- The `openTags` regex test (line 147):
`^<(?!...)[a-zA-Z:][^>]*[^\/]>$` applied to the trimmed line. -/
def openTagsTest (t : List Char) : Bool :=
  match t with
  | '<' :: rest => !(openExclNames.any (fun nm => nm.isPrefixOf rest)) && openShapeOk rest
  | _ => false

/-- Matcher for the regex tail `[^>]*>$` (checked from the reversed list). -/
def closeShapeTail (s : List Char) : Bool :=
  match s.reverse with
  | '>' :: rest => rest.all (fun c => !(c = '>'))
  | _ => false

/-- The `closeTags` regex test (line 148): `^<\/[a-zA-Z:][^>]*>$`. -/
def closeTagsTest (t : List Char) : Bool :=
  match t with
  | '<' :: '/' :: c :: rest => isTagNameChar c && closeShapeTail rest
  | _ => false

/-- Matcher for the regex tail `[^>]*\/>$` (checked from the reversed list). -/
def selfCloseTail (s : List Char) : Bool :=
  match s.reverse with
  | '>' :: '/' :: rest => rest.all (fun c => !(c = '>'))
  | _ => false

/-- The `selfCloseTags` regex test (line 149): `^<[a-zA-Z:][^>]*\/>$`. -/
def selfCloseTest (t : List Char) : Bool :=
  match t with
  | '<' :: c :: rest => isTagNameChar c && selfCloseTail rest
  | _ => false

/-- Worker for `jspTailTest`, carrying the character preceding the current
position (none at the start). -/
def jspTailGo (prev : Option Char) : List Char → Bool
  | [] => false
  | c :: cs =>
    if c = '>' then
      (match prev with
       | some p => !(p = '/')
       | none => false) || cs.head? = some '>'
    else jspTailGo (some c) cs

/-- Matcher for the unanchored regex tail `[^>]*[^\/]>` of `jspOpenTags`:
scanning for the first `>`, the pattern completes iff a non-`/` character
immediately precedes it, or a second `>` immediately follows it. -/
def jspTailTest (s : List Char) : Bool := jspTailGo none s

/-- The `jspOpenTags` regex test (line 152): `^<(names)[^>]*[^\/]>` (not
anchored at the end of the line). -/
def jspOpenTest (t : List Char) : Bool :=
  match t with
  | '<' :: rest =>
    jspOpenNames.any (fun nm => nm.isPrefixOf rest && jspTailTest (rest.drop nm.length))
  | _ => false

/-- The `jspCloseTags` regex test (line 153): `^<\/(names)>` (prefix of the
trimmed line). -/
def jspCloseTest (t : List Char) : Bool :=
  jspOpenNames.any (fun nm => (('<' :: '/' :: nm) ++ ['>']).isPrefixOf t)

/-- Depth value at which a non-blank trimmed line is emitted: closing-tag lines
first decrement the counter, clamped at zero (line 163–165,
`level = Math.max(0, level - 1)`). -/
def structEmitLevel (level : Int) (t : List Char) : Int :=
  if closeTagsTest t || jspCloseTest t then max 0 (level - 1) else level

/-- Depth value after a non-blank trimmed line was emitted: opening tags that
are not self-closing increment the counter (lines 170–174). -/
def structNextLevel (level : Int) (t : List Char) : Int :=
  let lv := structEmitLevel level t
  if !selfCloseTest t && (openTagsTest t || jspOpenTest t) then lv + 1 else lv

/-- The line loop of `formatHtmlStructure` (lines 155–175): blank lines are
emitted empty and leave the depth alone; other lines are trimmed and emitted
with `indent.repeat(level)` prefixed. -/
def structGo (ind : List Char) (level : Int) : List (List Char) → List (List Char)
  | [] => []
  | l :: ls =>
    let t := jsTrim l
    if t = [] then [] :: structGo ind level ls
    else (repIndent ind (structEmitLevel level t).toNat ++ t) ::
      structGo ind (structNextLevel level t) ls

/-- Trace of every value taken by the depth counter of the Structural Indenter:
the value on entering each line, the (possibly clamped) value at emission,
and the final value. -/
def structLevels (level : Int) : List (List Char) → List Int
  | [] => [level]
  | l :: ls =>
    let t := jsTrim l
    if t = [] then level :: structLevels level ls
    else level :: structEmitLevel level t :: structLevels (structNextLevel level t) ls

/-- `formatHtmlStructure` (formatter.ts lines 140–178). -/
def formatHtmlStructure (text : List Char) (o : FormatOptions) : List Char :=
  joinNl (structGo (indentUnit o) 0 (splitNl text))

/-! ### Directive Reformatter (formatter.ts lines 180–203) -/

/-- The whitespace-collapsed, trimmed content of a directive block
(`directive.replace(/\s+/g, ' ').trim()`, line 182). -/
def dirContent (directive : List Char) : List Char := jsTrim (collapseWs directive)

/-- Backtracking search for the greedy split of `(.*)\s*(%>)$`: try the longest
`.`-span first (`.` does not match a newline), requiring the remainder to be
whitespace followed immediately by the two characters `%>` at the end. -/
def dotStarGo : Nat → Nat → List Char → Option (List Char)
  | 0, _, _ => none
  | fuel + 1, j, rem =>
    if (rem.drop j).dropWhile isJsWs = ("%>".data) then some (rem.take j)
    else if j = 0 then none
    else dotStarGo fuel (j - 1) rem

/-- Matcher for the tail `(.*)\s*(%>)$` of the directive regex on line 188,
returning the `.*` capture (the attribute text). -/
def dotStarMatch (rem : List Char) : Option (List Char) :=
  let a := (rem.takeWhile (fun c => !(c = '\n'))).length
  dotStarGo (a + 1) a rem

/-- The regex `^(<%@\s*\w+)\s+(.*)\s*(%>)$` of line 188, returning the first
two captures (`prefix`, `attrs`); `none` when the content fails the pattern. -/
def dirHeadMatch (content : List Char) : Option (List Char × List Char) :=
  if ("<%@".data).isPrefixOf content then
    let r0 := content.drop 3
    let ws0 := r0.takeWhile isJsWs
    let r1 := r0.drop ws0.length
    let w := r1.takeWhile isWordChar
    if w = [] then none
    else
      let r2 := r1.drop w.length
      let ws2 := r2.takeWhile isJsWs
      if ws2 = [] then none
      else
        match dotStarMatch (r2.drop ws2.length) with
        | none => none
        | some attrs => some (("<%@".data) ++ ws0 ++ w, attrs)
  else none

/-- One attempt of the attribute-pair regex `\w+(?::\w+)?="[^"]*"` at the
current position; returns the matched pair and the rest of the input. -/
def attrPairAt (s : List Char) : Option (List Char × List Char) :=
  let eqQuote : List Char → List Char → Option (List Char × List Char) :=
    fun nm r =>
      match r with
      | '=' :: '"' :: r2 =>
        let v := r2.takeWhile (fun c => !(c = '"'))
        (match r2.drop v.length with
         | '"' :: rest => some (nm ++ '=' :: '"' :: (v ++ ['"']), rest)
         | _ => none)
      | _ => none
  let w := s.takeWhile isWordChar
  if w = [] then none
  else
    let r := s.drop w.length
    let colonTry :=
      match r with
      | ':' :: r2 =>
        let w2 := r2.takeWhile isWordChar
        if w2 = [] then none else eqQuote (w ++ ':' :: w2) (r2.drop w2.length)
      | _ => none
    match colonTry with
    | some res => some res
    | none => eqQuote w r

/-- `attrs.match(/\w+(?::\w+)?="[^"]*"/g) || []` (line 192): scan left to
right, advancing one character after a failed attempt and past the match
after a successful one. -/
def attrPairsGo : Nat → List Char → List (List Char)
  | 0, _ => []
  | _, [] => []
  | fuel + 1, s@(_ :: cs) =>
    match attrPairAt s with
    | some (pair, rest) => pair :: attrPairsGo fuel rest
    | none => attrPairsGo fuel cs

/-- All attribute pairs of an attribute text. -/
def attrPairs (attrs : List Char) : List (List Char) :=
  attrPairsGo (attrs.length + 1) attrs

/-- `formatDirective` (formatter.ts lines 180–203). -/
def formatDirective (directive : List Char) : List Char :=
  let content := dirContent directive
  if content.length ≤ 120 then content
  else
    match dirHeadMatch content with
    | none => content
    | some (pfx, attrs) =>
      let pairs := attrPairs attrs
      if pairs.length ≤ 1 then content
      else
        let ls := pfx :: pairs.map (fun a => ("    ".data) ++ a)
        joinNl (appendToLast (" %>".data) ls)

/-! ### JSP comment formatting (formatter.ts lines 205–211) -/

/-- `formatJspComment`: single-line comments with content shorter than 80
characters are normalised to `<%-- content --%>`; others are kept verbatim. -/
def formatJspComment (comment : List Char) (_o : FormatOptions) : List Char :=
  let content := jsTrim (jsSlice comment 4 (comment.length - 4))
  if !content.contains '\n' && decide (content.length < 80) then
    ("<%-- ".data) ++ content ++ (" --%>".data)
  else comment

/-! ### Java code formatting (formatter.ts lines 230–293) -/

/-- Key for the string-literal placeholder `__STR_n__`. -/
def strLitKey (n : Nat) : List Char := ("__STR_".data) ++ Nat.toDigits 10 n ++ ("__".data)

/-- Body scan of the string-literal regex `"(?:[^"\\]|\\.)*"` after the opening
quote: either a backslash escape (not before a newline, since `.` excludes
newlines) or any character other than `"` and `\`; stops at the closing
quote.  Returns the body and the rest after the closing quote. -/
def strLitBody : List Char → Option (List Char × List Char)
  | [] => none
  | '"' :: rest => some ([], rest)
  | '\\' :: d :: rest =>
    if d = '\n' then none
    else (strLitBody rest).map (fun p => ('\\' :: d :: p.1, p.2))
  | ['\\'] => none
  | c :: rest => (strLitBody rest).map (fun p => (c :: p.1, p.2))

/-- Find the first string-literal match: at each `"`, attempt `strLitBody`; on
failure the scan continues from the next character. -/
def findStrLit : List Char → Option (List Char × List Char × List Char)
  | [] => none
  | c :: cs =>
    (if c = '"' then
      match strLitBody cs with
      | some (body, rest) => some ([], '"' :: (body ++ ['"']), rest)
      | none => none
     else none).orElse fun _ =>
      (findStrLit cs).map (fun r => (c :: r.1, r.2.1, r.2.2))

/-- The string-literal protection pass of `formatJavaCode` (lines 235–239):
replaces every string literal with `__STR_n__`, returning the table of
replacements in insertion order. -/
def extractStrLits : Nat → Nat → List (List Char × List Char) → List Char →
    List (List Char × List Char) × List Char
  | 0, _, tbl, t => (tbl, t)
  | fuel + 1, n, tbl, t =>
    match findStrLit t with
    | none => (tbl, t)
    | some (pre, m, post) =>
      let key := strLitKey n
      let r := extractStrLits fuel (n + 1) (tbl ++ [(key, m)]) post
      (r.1, pre ++ key ++ r.2)

/-- `code.replace(/\r\n/g, '\n')`. -/
def crlfToLf : List Char → List Char
  | '\r' :: '\n' :: rest => '\n' :: crlfToLf rest
  | c :: rest => c :: crlfToLf rest
  | [] => []

/-- `code.replace(/\r/g, '\n')`. -/
def crToLf (l : List Char) : List Char := l.map fun c => if c = '\r' then '\n' else c

/-- Whether the whitespace run at the head of the list contains a newline:
this is exactly when the lookahead `(?=\s*\n)` succeeds. -/
def wsRunHasNl : List Char → Bool
  | [] => false
  | c :: cs => if c = '\n' then true else if isJsWs c then wsRunHasNl cs else false

/-- The pass on line 245: a statement terminator not already followed by a
line break gets one appended (regex `;(?!\s*\n)`). -/
def addNlAfterSemis : List Char → List Char
  | [] => []
  | c :: cs =>
    if c = ';' && !wsRunHasNl cs then ';' :: '\n' :: addNlAfterSemis cs
    else c :: addNlAfterSemis cs

/-- The pass on line 248: an opening brace not already followed by a line
break gets one appended. -/
def addNlAfterOpen : List Char → List Char
  | [] => []
  | c :: cs =>
    if c = lbraceChar && !wsRunHasNl cs then c :: '\n' :: addNlAfterOpen cs
    else c :: addNlAfterOpen cs

/-- The pass on line 251: a closing brace not already preceded by a line
break gets one prepended (regex lookbehind `(?<!\n\s*)`).  The accumulator
`runNl` says whether the maximal whitespace run immediately before the
current position contains a newline, which is exactly when the lookbehind
`(?<=\n\s*)` succeeds. -/
def addNlBeforeClose (runNl : Bool) : List Char → List Char
  | [] => []
  | c :: cs =>
    if c = rbraceChar then
      if runNl then c :: addNlBeforeClose false cs
      else '\n' :: c :: addNlBeforeClose false cs
    else if isJsWs c then c :: addNlBeforeClose (runNl || c = '\n') cs
    else c :: addNlBeforeClose false cs

/-- The lookahead `(?=\s*(?:else|catch|finally|\n))`: skip whitespace; succeed
on a newline or on one of the continuation keywords. -/
def closeFollowTest : List Char → Bool
  | [] => false
  | c :: cs =>
    if c = '\n' then true
    else if ("else".data).isPrefixOf (c :: cs) || ("catch".data).isPrefixOf (c :: cs) ||
        ("finally".data).isPrefixOf (c :: cs) then true
    else if isJsWs c then closeFollowTest cs
    else false

/-- The pass on line 254: a closing brace gets a line break appended unless
followed (after whitespace) by else/catch/finally or a line break. -/
def addNlAfterClose : List Char → List Char
  | [] => []
  | c :: cs =>
    if c = rbraceChar && !closeFollowTest cs then c :: '\n' :: addNlAfterClose cs
    else c :: addNlAfterClose cs

/-- Replace every terminator-plus-newline pair by terminator-plus-space,
applied inside a matched `for` header (lines 257–259). -/
def semiNlToSemiSp : List Char → List Char
  | ';' :: '\n' :: rest => ';' :: ' ' :: semiNlToSemiSp rest
  | c :: rest => c :: semiNlToSemiSp rest
  | [] => []

/-- Attempt of the regex `for\s*\([^)]*\)` at the current position, returning
the matched segment and the rest. -/
def matchForAt (l : List Char) : Option (List Char × List Char) :=
  if ("for".data).isPrefixOf l then
    let r := l.drop 3
    let w := r.takeWhile isJsWs
    match r.drop w.length with
    | '(' :: r2 =>
      let body := r2.takeWhile (fun c => !(c = ')'))
      (match r2.drop body.length with
       | ')' :: rest => some (("for".data) ++ w ++ '(' :: (body ++ [')']), rest)
       | _ => none)
    | _ => none
  else none

/-- The pass of lines 257–259 (regex `for\s*\([^)]*\)`): restore the
statement separators inside iteration headers. -/
def fixForHeaders : Nat → List Char → List Char
  | 0, l => l
  | _, [] => []
  | fuel + 1, c :: cs =>
    match matchForAt (c :: cs) with
    | some (seg, rest) => semiNlToSemiSp seg ++ fixForHeaders fuel rest
    | none => c :: fixForHeaders fuel cs

/-- Depth at which a non-blank trimmed line of Java code is emitted: lines
starting with `}` first decrement the counter, clamped at one
(`level = Math.max(1, level - 1)`, line 275). -/
def javaEmitLevel (level : Int) (t : List Char) : Int :=
  if t.head? = some rbraceChar then max 1 (level - 1) else level

/-- Depth after emitting a line of Java code: lines ending with `{` increment
the counter (lines 281–283). -/
def javaNextLevel (level : Int) (t : List Char) : Int :=
  let lv := javaEmitLevel level t
  if t.getLast? = some lbraceChar then lv + 1 else lv

/-- The indentation loop of `formatJavaCode` (lines 262–284); the counter
starts at 1 because the code lives inside the block delimiters. -/
def javaIndentGo (ind : List Char) (level : Int) : List (List Char) → List (List Char)
  | [] => []
  | l :: ls =>
    let t := jsTrim l
    if t = [] then [] :: javaIndentGo ind level ls
    else (repIndent ind (javaEmitLevel level t).toNat ++ t) ::
      javaIndentGo ind (javaNextLevel level t) ls

/-- Trace of every value taken by the brace-depth counter of the Java
indentation loop. -/
def javaLevels (level : Int) : List (List Char) → List Int
  | [] => [level]
  | l :: ls =>
    let t := jsTrim l
    if t = [] then level :: javaLevels level ls
    else level :: javaEmitLevel level t :: javaLevels (javaNextLevel level t) ls

/-- The dollar-substitution of JS `String.replace` with a string replacement
and no capture groups (`GetSubstitution`): `$$` is a literal dollar, `$&` the
matched text, a dollar-backquote the text before the match, a
dollar-apostrophe the text after it; everything else is literal. -/
def substDollar (matched pre post : List Char) : List Char → List Char
  | [] => []
  | '$' :: d :: rest =>
    if d = '$' then '$' :: substDollar matched pre post rest
    else if d = '&' then matched ++ substDollar matched pre post rest
    else if d = backtickChar then pre ++ substDollar matched pre post rest
    else if d = aposChar then post ++ substDollar matched pre post rest
    else '$' :: d :: substDollar matched pre post rest
  | ['$'] => ['$']
  | c :: rest => c :: substDollar matched pre post rest

/-- JS `text.replace(pat, rep)` with string pattern and string replacement:
replace the first occurrence of `pat`, applying dollar-substitution to
`rep`; no occurrence leaves the text unchanged. -/
def jsReplaceOnce (t pat rep : List Char) : List Char :=
  match splitAtFirst (fun l => pat.isPrefixOf l) t with
  | none => t
  | some (pre, rest) =>
    let post := rest.drop pat.length
    pre ++ substDollar pat pre post rep ++ post

/-- `formatJavaCode` (formatter.ts lines 230–293). -/
def formatJavaCode (code : List Char) (ind : List Char) : List Char :=
  let ex := extractStrLits (code.length + 1) 0 [] code
  let c1 := crToLf (crlfToLf ex.2)
  let c2 := addNlAfterSemis c1
  let c3 := addNlAfterOpen c2
  let c4 := addNlBeforeClose false c3
  let c5 := addNlAfterClose c4
  let c6 := fixForHeaders (c5.length + 1) c5
  let out := joinNl (javaIndentGo ind 1 (splitNl c6))
  ex.1.foldl (fun acc kv => jsReplaceOnce acc kv.1 kv.2) out

/-! ### Scripting-block formatting (formatter.ts lines 213–228) -/

/-- The block delimiter prefix: `<%!` for declarations, `<%` otherwise. -/
def jspBlockPfx (block : List Char) : List Char :=
  if ("<%!".data).isPrefixOf block then ("<%!".data) else ("<%".data)

/-- `block.slice(prefix.length, -2).trim()`: the inner content of a
scriptlet/declaration block. -/
def jspBlockContent (block : List Char) : List Char :=
  jsTrim (jsSlice block (jspBlockPfx block).length (block.length - 2))

/-- `formatJspBlock`: short single statements stay on one line (line 220–223),
everything else goes through `formatJavaCode` between the delimiters. -/
def formatJspBlock (block : List Char) (o : FormatOptions) : List Char :=
  let content := jspBlockContent block
  if !content.contains '\n' && decide (content.length < 60) &&
      !content.contains lbraceChar && decide (countCh ';' content ≤ 1) then
    jspBlockPfx block ++ ' ' :: (content ++ (" %>".data))
  else
    jspBlockPfx block ++ '\n' :: (formatJavaCode content (indentUnit o) ++ '\n' :: ("%>".data))

/-! ### Region Extractor and the full pipeline (formatter.ts lines 52–138) -/

/-- Find the first region delimited by a position where `openPred` holds
(consuming `openLen` characters) and the earliest position after it where
`closePred` holds (consuming `closeLen` characters): this is the matching
behaviour of the lazy patterns `open[\s\S]*?close`.  Returns
(text before the match, matched text, text after the match). -/
def findRegionP (openPred : List Char → Bool) (openLen : Nat)
    (closePred : List Char → Bool) (closeLen : Nat) (t : List Char) :
    Option (List Char × List Char × List Char) :=
  match splitAtFirst openPred t with
  | none => none
  | some (pre, rest) =>
    match splitAtFirst closePred (rest.drop openLen) with
    | none => none
    | some (mid, rest2) =>
      some (pre, rest.take openLen ++ mid ++ rest2.take closeLen, rest2.drop closeLen)

/-- Region search for two literal delimiters. -/
def litFind (op cl : List Char) (t : List Char) : Option (List Char × List Char × List Char) :=
  findRegionP (fun l => op.isPrefixOf l) op.length (fun l => cl.isPrefixOf l) cl.length t

/-- The opener of a scriptlet: `<%` with the negative lookahead `(?![=!@-])`
(line 79), which also succeeds at the end of the input. -/
def scriptletOpenAt : List Char → Bool
  | '<' :: '%' :: rest =>
    (match rest with
     | [] => true
     | d :: _ => !(d = '=' || d = '!' || d = '@' || d = '-'))
  | _ => false

/-- Placeholder key `base ++ counter ++ "__"`, e.g. `__EL_0__`. -/
def phKey (base : List Char) (n : Nat) : List Char :=
  base ++ Nat.toDigits 10 n ++ ('_' :: ['_'])

/-- One extraction pass (`text.replace(pattern, match => { key; map.set; key })`):
repeatedly find the next region, store its transformed content under a fresh
key in the table, and substitute the key for the match.  `st` is the shared
counter and the insertion-ordered content table. -/
def runPass (find : List Char → Option (List Char × List Char × List Char))
    (keyOf : Nat → List Char) (tr : List Char → List Char) :
    Nat → Nat × List (List Char × List Char) → List Char →
    (Nat × List (List Char × List Char)) × List Char
  | 0, st, t => (st, t)
  | fuel + 1, st, t =>
    match find t with
    | none => (st, t)
    | some (pre, m, post) =>
      let key := keyOf st.1
      let st2 := (st.1 + 1, st.2 ++ [(key, tr m)])
      let r := runPass find keyOf tr fuel st2 post
      (r.1, pre ++ key ++ r.2)

/-- `formatJsp` (formatter.ts lines 52–138): extract and transform the nine
protected region kinds in source order, re-indent the skeleton, restore the
table entries in insertion order with `String.replace`, cap blank-line runs,
and normalise trailing whitespace. -/
def formatJsp (text : List Char) (o : FormatOptions) : List Char :=
  let s0 : Nat × List (List Char × List Char) := (0, [])
  let r1 := runPass (litFind ("<%--".data) ("--%>".data)) (phKey ("__JSP_COMMENT_".data))
      (fun m => formatJspComment m o) (text.length + 1) s0 text
  let r2 := runPass (litFind ("<%!".data) ("%>".data)) (phKey ("__JSP_DECL_".data))
      (fun m => formatJspBlock m o) (r1.2.length + 1) r1.1 r1.2
  let r3 := runPass (litFind ("<%=".data) ("%>".data)) (phKey ("__JSP_EXPR_".data))
      (fun m => jsTrim (collapseWs m)) (r2.2.length + 1) r2.1 r2.2
  let r4 := runPass (findRegionP scriptletOpenAt 2 (fun l => (("%>".data)).isPrefixOf l) 2)
      (phKey ("__JSP_SCRIPT_".data)) (fun m => formatJspBlock m o) (r3.2.length + 1) r3.1 r3.2
  let r5 := runPass (litFind ("<%@".data) ("%>".data)) (phKey ("__JSP_DIR_".data))
      (fun m => formatDirective m) (r4.2.length + 1) r4.1 r4.2
  let r6 := runPass (litFind (['$', lbraceChar]) ([rbraceChar])) (phKey ("__EL_".data))
      (fun m => m) (r5.2.length + 1) r5.1 r5.2
  let r7 := runPass (litFind (['#', lbraceChar]) ([rbraceChar])) (phKey ("__DEL_".data))
      (fun m => m) (r6.2.length + 1) r6.1 r6.2
  let r8 := runPass (findRegionP (isPrefixOfCI ("<script".data)) 7
        (isPrefixOfCI ("</script>".data)) 9)
      (phKey ("__SCRIPT_".data)) (fun m => m) (r7.2.length + 1) r7.1 r7.2
  let r9 := runPass (findRegionP (isPrefixOfCI ("<style".data)) 6
        (isPrefixOfCI ("</style>".data)) 8)
      (phKey ("__STYLE_".data)) (fun m => m) (r8.2.length + 1) r8.1 r8.2
  let t1 := formatHtmlStructure r9.2 o
  let t2 := r9.1.2.foldl (fun acc kv => jsReplaceOnce acc kv.1 kv.2) t1
  let t3 :=
    if o.preserveNewlines then
      collapseNlRuns (o.maxPreserveNewlines + 2) (o.maxPreserveNewlines + 1) t2
    else t2
  trimTrailingToNl t3

/-! ### Concrete inputs used by the claim theorems -/

/-- A script block whose body is a single expression-language fragment. -/
def elScriptInput : List Char := ("<script>$\x7ba\x7d</script>".data)

/-- The page directive of Scenario A in the specification. -/
def pageDirective : List Char :=
  ("<%@ page language=\"java\" contentType=\"text/html; charset=UTF-8\" pageEncoding=\"UTF-8\" session=\"true\" %>".data)

/-- The Scenario A directive lengthened past 120 columns by a fifth
attribute. -/
def pageDirectiveLong : List Char :=
  ("<%@ page language=\"java\" contentType=\"text/html; charset=UTF-8\" pageEncoding=\"UTF-8\" session=\"true\" foo=\"".data) ++
  List.replicate 30 'x' ++ ("\" %>".data)

/-- The expected multi-line layout of `pageDirectiveLong`. -/
def pageDirectiveLongExpected : List Char :=
  ("<%@ page\n    language=\"java\"\n    contentType=\"text/html; charset=UTF-8\"\n    pageEncoding=\"UTF-8\"\n    session=\"true\"\n    foo=\"".data) ++
  List.replicate 30 'x' ++ ("\" %>".data)

/-- A single-line directive longer than 120 columns whose attribute text
contains two well-formed pairs followed by non-attribute junk. -/
def junkDirective : List Char :=
  ("<%@ page a=\"b\" c=\"d\" ".data) ++ List.replicate 100 'z' ++ (" %>".data)

/-- A directive block longer than 120 columns (collapsed) that fails the
`<%@ name attrs %>` pattern: `!` follows `<%@` where `\w+` is required. -/
def malformedDirective : List Char :=
  ("<%@!".data) ++ List.replicate 60 'a' ++ '\n' :: (List.replicate 60 'a' ++ (" %>".data))

/-- A directive block whose body contains a run of 5 blank lines. -/
def dirWithBlankRun : List Char :=
  ("<%@ page".data) ++ List.replicate 6 '\n' ++ ("a=\"b\" %>".data)

/-- Plain text with a run of 5 blank lines between two non-blank lines. -/
def textWithBlankRun : List Char := ("x\n\n\n\n\n\ny".data)

/-- The single-statement scriptlet of Scenario C. -/
def shortScriptlet : List Char := ("<% int x = 1; %>".data)

/-! ### Helper lemmas -/

theorem trimStart_ws_append (w l : List Char) (h : ∀ c ∈ w, isJsWs c = true) :
    trimStart (w ++ l) = trimStart l := by
  induction w with
  | nil => rfl
  | cons a as ih =>
    have ha : isJsWs a = true := h a (List.mem_cons_self a as)
    rw [List.cons_append, trimStart, List.dropWhile_cons_of_pos ha]
    exact ih fun c hc => h c (List.mem_cons_of_mem a hc)

theorem dropWhile_idem (p : Char → Bool) (l : List Char) :
    (l.dropWhile p).dropWhile p = l.dropWhile p := by
  induction l with
  | nil => rfl
  | cons a as ih =>
    by_cases ha : p a = true
    · rw [List.dropWhile_cons_of_pos ha]; exact ih
    · rw [List.dropWhile_cons_of_neg ha, List.dropWhile_cons_of_neg ha]

theorem length_dropWhile_le (p : Char → Bool) (l : List Char) :
    (l.dropWhile p).length ≤ l.length := by
  induction l with
  | nil => simp
  | cons a as ih =>
    by_cases ha : p a = true
    · rw [List.dropWhile_cons_of_pos ha]
      exact Nat.le_succ_of_le ih
    · rw [List.dropWhile_cons_of_neg ha]

theorem trimStart_idem (l : List Char) : trimStart (trimStart l) = trimStart l :=
  dropWhile_idem isJsWs l

theorem trimEnd_idem (l : List Char) : trimEnd (trimEnd l) = trimEnd l := by
  induction l with
  | nil => rfl
  | cons a as ih =>
    rcases h2 : trimEnd as with _ | ⟨r, rs⟩
    · by_cases ha : isJsWs a = true
      · simp [trimEnd, h2, ha]
      · simp [trimEnd, h2, ha]
    · rw [h2] at ih
      simp only [trimEnd, h2]
      simp only [trimEnd] at ih ⊢
      rw [ih]

theorem trimStart_trimEnd (l : List Char) (h : trimStart l = l) :
    trimStart (trimEnd l) = trimEnd l := by
  cases l with
  | nil => rfl
  | cons a as =>
    have ha : ¬ isJsWs a = true := by
      intro ha'
      rw [trimStart, List.dropWhile_cons_of_pos ha'] at h
      have hle := length_dropWhile_le isJsWs as
      have hlen := congrArg List.length h
      simp only [List.length_cons] at hlen
      omega
    rcases h2 : trimEnd as with _ | ⟨r, rs⟩
    · simp only [trimEnd, h2]
      rw [if_neg ha, trimStart, List.dropWhile_cons_of_neg ha]
    · simp only [trimEnd, h2]
      rw [trimStart, List.dropWhile_cons_of_neg ha]

theorem trimStart_jsTrim (l : List Char) : trimStart (jsTrim l) = jsTrim l :=
  trimStart_trimEnd (trimStart l) (trimStart_idem l)

theorem trimEnd_jsTrim (l : List Char) : trimEnd (jsTrim l) = jsTrim l :=
  trimEnd_idem (trimStart l)

theorem jsTrim_ws_append (w l : List Char) (h : ∀ c ∈ w, isJsWs c = true) :
    jsTrim (w ++ jsTrim l) = jsTrim l := by
  show trimEnd (trimStart (w ++ jsTrim l)) = jsTrim l
  rw [trimStart_ws_append w _ h, trimStart_jsTrim, trimEnd_jsTrim]

theorem mem_trimStart {c : Char} {l : List Char} (h : c ∈ trimStart l) : c ∈ l := by
  induction l with
  | nil => simpa [trimStart] using h
  | cons a as ih =>
    by_cases ha : isJsWs a = true
    · rw [trimStart, List.dropWhile_cons_of_pos ha] at h
      exact List.mem_cons_of_mem a (ih h)
    · rwa [trimStart, List.dropWhile_cons_of_neg ha] at h

theorem mem_trimEnd {c : Char} {l : List Char} (h : c ∈ trimEnd l) : c ∈ l := by
  induction l with
  | nil => simpa [trimEnd] using h
  | cons a as ih =>
    rcases h2 : trimEnd as with _ | ⟨r, rs⟩
    · simp only [trimEnd, h2] at h
      by_cases ha : isJsWs a = true
      · simp [ha] at h
      · simp [ha] at h
        simp [h]
    · simp only [trimEnd, h2] at h
      rcases List.mem_cons.mp h with rfl | h3
      · exact List.mem_cons_self c as
      · exact List.mem_cons_of_mem a (ih (h2 ▸ h3))

theorem mem_jsTrim {c : Char} {l : List Char} (h : c ∈ jsTrim l) : c ∈ l :=
  mem_trimStart (mem_trimEnd h)

theorem mem_repIndent {c : Char} (ind : List Char) (n : Nat)
    (h : c ∈ repIndent ind n) : c ∈ ind := by
  induction n with
  | zero => simpa [repIndent] using h
  | succ m ih =>
    rcases List.mem_append.mp h with h2 | h2
    · exact h2
    · exact ih h2

theorem indentUnit_ws (o : FormatOptions) : ∀ c ∈ indentUnit o, isJsWs c = true := by
  intro c hc
  unfold indentUnit at hc
  split at hc
  · rw [List.eq_of_mem_replicate hc]; decide
  · simp at hc; rw [hc]; decide

theorem indentUnit_no_nl (o : FormatOptions) : '\n' ∉ indentUnit o := by
  unfold indentUnit
  split
  · intro h
    have := List.eq_of_mem_replicate h
    exact absurd this (by decide)
  · decide

theorem splitNl_ne_nil (t : List Char) : splitNl t ≠ [] := by
  cases t with
  | nil => simp [splitNl]
  | cons c cs =>
    simp only [splitNl]
    split
    · simp
    · split <;> simp

theorem splitNl_no_nl (t : List Char) : ∀ l ∈ splitNl t, '\n' ∉ l := by
  induction t with
  | nil =>
    intro l hl
    simp [splitNl] at hl
    simp [hl]
  | cons c cs ih =>
    intro l hl
    by_cases hc : c = '\n'
    · rw [hc] at hl
      simp only [splitNl, if_pos rfl] at hl
      rcases List.mem_cons.mp hl with rfl | h2
      · simp
      · exact ih l h2
    · simp only [splitNl, if_neg hc] at hl
      rcases h2 : splitNl cs with _ | ⟨h, t2⟩
      · exact absurd h2 (splitNl_ne_nil cs)
      · rw [h2] at hl
        rcases List.mem_cons.mp hl with rfl | h3
        · intro hmem
          rcases List.mem_cons.mp hmem with heq | hmem2
          · exact hc heq.symm
          · exact ih h (h2 ▸ List.mem_cons_self h t2) hmem2
        · exact ih l (h2 ▸ List.mem_cons_of_mem h h3)

theorem splitNl_of_no_nl (t : List Char) (h : '\n' ∉ t) : splitNl t = [t] := by
  induction t with
  | nil => rfl
  | cons c cs ih =>
    have hc : ¬ c = '\n' := fun he => h (he ▸ List.mem_cons_self c cs)
    have hcs := ih fun hm => h (List.mem_cons_of_mem c hm)
    simp only [splitNl, if_neg hc, hcs]

theorem splitNl_append (x r : List Char) (h : '\n' ∉ x) :
    splitNl (x ++ '\n' :: r) = x :: splitNl r := by
  induction x with
  | nil => simp [splitNl]
  | cons c cs ih =>
    have hc : ¬ c = '\n' := fun he => h (he ▸ List.mem_cons_self c cs)
    have hcs := ih fun hm => h (List.mem_cons_of_mem c hm)
    simp only [List.cons_append, splitNl, if_neg hc, List.append_eq, hcs]

theorem splitNl_joinNl (xs : List (List Char)) (h1 : xs ≠ [])
    (h2 : ∀ x ∈ xs, '\n' ∉ x) : splitNl (joinNl xs) = xs := by
  induction xs with
  | nil => exact absurd rfl h1
  | cons x xs ih =>
    cases xs with
    | nil =>
      simp only [joinNl]
      exact splitNl_of_no_nl x (h2 x (List.mem_cons_self x []))
    | cons y ys =>
      have hx : '\n' ∉ x := h2 x (List.mem_cons_self x (y :: ys))
      have hj : joinNl (x :: y :: ys) = x ++ '\n' :: joinNl (y :: ys) := rfl
      rw [hj, splitNl_append x _ hx,
        ih (by simp) fun z hz => h2 z (List.mem_cons_of_mem x hz)]

theorem structGo_length (ind : List Char) (lvl : Int) (ls : List (List Char)) :
    (structGo ind lvl ls).length = ls.length := by
  induction ls generalizing lvl with
  | nil => rfl
  | cons l ls ih =>
    by_cases ht : jsTrim l = [] <;> simp [structGo, ht, ih]

theorem structGo_no_nl (ind : List Char) (hind : '\n' ∉ ind) (ls : List (List Char)) :
    ∀ (lvl : Int), (∀ l ∈ ls, '\n' ∉ l) → ∀ e ∈ structGo ind lvl ls, '\n' ∉ e := by
  induction ls with
  | nil => intro lvl _ e he; simp [structGo] at he
  | cons l ls ih =>
    intro lvl h e he
    have hl : '\n' ∉ l := h l (List.mem_cons_self l ls)
    have hrest : ∀ l₂ ∈ ls, '\n' ∉ l₂ := fun l₂ hm => h l₂ (List.mem_cons_of_mem l hm)
    by_cases ht : jsTrim l = []
    · simp only [structGo, ht, if_pos] at he
      rcases List.mem_cons.mp he with rfl | h2
      · simp
      · exact ih lvl hrest e h2
    · simp only [structGo, ht, if_neg] at he
      rcases List.mem_cons.mp he with rfl | h2
      · intro hmem
        rcases List.mem_append.mp hmem with hm | hm
        · exact hind (mem_repIndent ind _ hm)
        · exact hl (mem_jsTrim hm)
      · exact ih (structNextLevel lvl (jsTrim l)) hrest e h2

theorem repIndent_ws (ind : List Char) (hind : ∀ c ∈ ind, isJsWs c = true) (n : Nat) :
    ∀ c ∈ repIndent ind n, isJsWs c = true :=
  fun c hc => hind c (mem_repIndent ind n hc)

theorem jsTrim_emitted (ind : List Char) (hind : ∀ c ∈ ind, isJsWs c = true)
    (n : Nat) (l : List Char) : jsTrim (repIndent ind n ++ jsTrim l) = jsTrim l :=
  jsTrim_ws_append (repIndent ind n) l (repIndent_ws ind hind n)

theorem structGo_idem (ind : List Char) (hind : ∀ c ∈ ind, isJsWs c = true)
    (ls : List (List Char)) : ∀ lvl : Int,
    structGo ind lvl (structGo ind lvl ls) = structGo ind lvl ls := by
  induction ls with
  | nil => intro lvl; rfl
  | cons l ls ih =>
    intro lvl
    by_cases ht : jsTrim l = []
    · have e1 : structGo ind lvl (l :: ls) = [] :: structGo ind lvl ls := by
        simp [structGo, ht]
      rw [e1]
      have hnil : jsTrim ([] : List Char) = [] := rfl
      have e2 : structGo ind lvl ([] :: structGo ind lvl ls) =
          [] :: structGo ind lvl (structGo ind lvl ls) := by
        simp [structGo, hnil]
      rw [e2, ih lvl]
    · have e1 : structGo ind lvl (l :: ls) =
          (repIndent ind (structEmitLevel lvl (jsTrim l)).toNat ++ jsTrim l) ::
            structGo ind (structNextLevel lvl (jsTrim l)) ls := by
        simp [structGo, ht]
      rw [e1]
      have hkey := jsTrim_emitted ind hind (structEmitLevel lvl (jsTrim l)).toNat l
      have hne : ¬ jsTrim (repIndent ind (structEmitLevel lvl (jsTrim l)).toNat ++
          jsTrim l) = [] := by
        rw [hkey]; exact ht
      have e2 : structGo ind lvl
          ((repIndent ind (structEmitLevel lvl (jsTrim l)).toNat ++ jsTrim l) ::
            structGo ind (structNextLevel lvl (jsTrim l)) ls) =
          (repIndent ind (structEmitLevel lvl (jsTrim l)).toNat ++ jsTrim l) ::
            structGo ind (structNextLevel lvl (jsTrim l))
              (structGo ind (structNextLevel lvl (jsTrim l)) ls) := by
        simp only [structGo, hkey]
        rw [if_neg ht]
      rw [e2, ih (structNextLevel lvl (jsTrim l))]

theorem structEmitLevel_nonneg (lvl : Int) (t : List Char) (h : 0 ≤ lvl) :
    0 ≤ structEmitLevel lvl t := by
  unfold structEmitLevel
  split
  · exact le_max_left 0 (lvl - 1)
  · exact h

theorem structNextLevel_nonneg (lvl : Int) (t : List Char) (h : 0 ≤ lvl) :
    0 ≤ structNextLevel lvl t := by
  have he := structEmitLevel_nonneg lvl t h
  unfold structNextLevel
  dsimp only
  split <;> omega

theorem structLevels_nonneg_aux (ls : List (List Char)) :
    ∀ lvl : Int, 0 ≤ lvl → ∀ x ∈ structLevels lvl ls, 0 ≤ x := by
  induction ls with
  | nil =>
    intro lvl h x hx
    simp [structLevels] at hx
    omega
  | cons l ls ih =>
    intro lvl h x hx
    by_cases ht : jsTrim l = []
    · simp only [structLevels, ht, if_pos] at hx
      rcases List.mem_cons.mp hx with rfl | h2
      · exact h
      · exact ih lvl h x h2
    · simp only [structLevels, ht, if_neg] at hx
      rcases List.mem_cons.mp hx with rfl | h2
      · exact h
      · rcases List.mem_cons.mp h2 with rfl | h3
        · exact structEmitLevel_nonneg lvl (jsTrim l) h
        · exact ih (structNextLevel lvl (jsTrim l))
            (structNextLevel_nonneg lvl (jsTrim l) h) x h3

theorem javaEmitLevel_ge_one (lvl : Int) (t : List Char) (h : 1 ≤ lvl) :
    1 ≤ javaEmitLevel lvl t := by
  unfold javaEmitLevel
  split
  · exact le_max_left 1 (lvl - 1)
  · exact h

theorem javaNextLevel_ge_one (lvl : Int) (t : List Char) (h : 1 ≤ lvl) :
    1 ≤ javaNextLevel lvl t := by
  have he := javaEmitLevel_ge_one lvl t h
  unfold javaNextLevel
  dsimp only
  split <;> omega

theorem javaLevels_ge_one_aux (ls : List (List Char)) :
    ∀ lvl : Int, 1 ≤ lvl → ∀ x ∈ javaLevels lvl ls, 1 ≤ x := by
  induction ls with
  | nil =>
    intro lvl h x hx
    simp [javaLevels] at hx
    omega
  | cons l ls ih =>
    intro lvl h x hx
    by_cases ht : jsTrim l = []
    · simp only [javaLevels, ht, if_pos] at hx
      rcases List.mem_cons.mp hx with rfl | h2
      · exact h
      · exact ih lvl h x h2
    · simp only [javaLevels, ht, if_neg] at hx
      rcases List.mem_cons.mp hx with rfl | h2
      · exact h
      · rcases List.mem_cons.mp h2 with rfl | h3
        · exact javaEmitLevel_ge_one lvl (jsTrim l) h
        · exact ih (javaNextLevel lvl (jsTrim l))
            (javaNextLevel_ge_one lvl (jsTrim l) h) x h3

theorem isPrefixOf_append_self (a b : List Char) : a.isPrefixOf (a ++ b) = true := by
  rw [List.isPrefixOf_iff_prefix]
  exact List.prefix_append a b

theorem javaIndentGo_indent_aux (ind : List Char) (ls : List (List Char)) :
    ∀ lvl : Int, 1 ≤ lvl →
      ∀ l ∈ javaIndentGo ind lvl ls, l = [] ∨ ind.isPrefixOf l = true := by
  induction ls with
  | nil => intro lvl _ l hl; simp [javaIndentGo] at hl
  | cons x xs ih =>
    intro lvl h l hl
    by_cases ht : jsTrim x = []
    · simp only [javaIndentGo, ht, if_pos] at hl
      rcases List.mem_cons.mp hl with rfl | h2
      · exact Or.inl rfl
      · exact ih lvl h l h2
    · simp only [javaIndentGo, ht, if_neg] at hl
      rcases List.mem_cons.mp hl with rfl | h2
      · right
        have hlv := javaEmitLevel_ge_one lvl (jsTrim x) h
        have hn : 1 ≤ (javaEmitLevel lvl (jsTrim x)).toNat := by omega
        obtain ⟨m, hm⟩ : ∃ m, (javaEmitLevel lvl (jsTrim x)).toNat = m + 1 :=
          ⟨(javaEmitLevel lvl (jsTrim x)).toNat - 1, by omega⟩
        rw [hm]
        show ind.isPrefixOf ((ind ++ repIndent ind m) ++ jsTrim x) = true
        rw [List.append_assoc]
        exact isPrefixOf_append_self ind (repIndent ind m ++ jsTrim x)
      · exact ih (javaNextLevel lvl (jsTrim x))
          (javaNextLevel_ge_one lvl (jsTrim x) h) l h2

theorem voidStepAux (t : List Char) (h1 : (closeTagsTest t || jspCloseTest t) = false)
    (h2 : (!selfCloseTest t && (openTagsTest t || jspOpenTest t)) = false) (level : Int) :
    structEmitLevel level t = level ∧ structNextLevel level t = level := by
  have he : structEmitLevel level t = level := by
    unfold structEmitLevel
    rw [h1]
    simp
  refine ⟨he, ?_⟩
  unfold structNextLevel
  rw [h2, he]
  simp

/-! ### Claim theorems -/

/-- C1 (counterexample): `formatJsp` is not idempotent.  `junkDirective` is a
single-line directive longer than 120 columns whose attribute text carries
non-attribute junk: the first pass drops the junk while splitting the
directive across lines, and the second pass, seeing a collapsed content of
only 23 columns, folds it back onto a single line. -/
theorem formatJsp_second_pass_differs :
    formatJsp (formatJsp junkDirective stdOpts) stdOpts ≠ formatJsp junkDirective stdOpts := by
  decide

/-- C1 (amended): the Structural Indenter stage on its own is idempotent: for
every text and every `FormatOptions`, re-running `formatHtmlStructure` over
its own output returns that output unchanged. -/
theorem formatHtmlStructure_idempotent (t : List Char) (o : FormatOptions) :
    formatHtmlStructure (formatHtmlStructure t o) o = formatHtmlStructure t o := by
  unfold formatHtmlStructure
  rw [splitNl_joinNl _ ?h1 ?h2, structGo_idem _ (indentUnit_ws o)]
  case h1 =>
    have hlen := structGo_length (indentUnit o) 0 (splitNl t)
    intro hc
    rw [hc] at hlen
    simp at hlen
    exact splitNl_ne_nil t (List.length_eq_zero.mp hlen.symm)
  case h2 =>
    exact structGo_no_nl _ (indentUnit_no_nl o) _ 0 (splitNl_no_nl t)

/-- C2: the expression-language fragment of `elScriptInput` does not reappear
in the output of `formatJsp` — the fragment sits inside a `<script>` block,
the script region is extracted after the fragment, and the restore loop runs
in insertion order, so the placeholder of the fragment is restored before the
script body that contains it and is then left behind verbatim. -/
theorem formatJsp_drops_el_inside_script :
    containsSub ("$\x7ba\x7d".data) elScriptInput = true ∧
    containsSub ("$\x7ba\x7d".data) (formatJsp elScriptInput stdOpts) = false ∧
    formatJsp elScriptInput stdOpts = ("<script>__EL_0__</script>".data) := by
  refine ⟨by decide, by decide, by decide⟩

/-- C3: over any input text, the running indentation depth of the Structural
Indenter (the walk of `formatHtmlStructure` over the split lines), started
at 0, never goes negative: every value the counter takes — including the
clamped value used at each emission — is non-negative. -/
theorem structLevels_nonneg : ∀ text : List Char,
    ((structLevels 0 (splitNl text)).all fun x => decide (0 ≤ x)) = true := by
  intro text
  rw [List.all_eq_true]
  intro x hx
  rw [decide_eq_true_eq]
  exact structLevels_nonneg_aux (splitNl text) 0 (le_refl 0) x hx

/-- C4 (counterexample): the Scenario A page directive is only 102 characters
long, so `formatDirective` keeps it on a single line — the claimed multi-line
form (which would contain a newline) is not produced. -/
theorem formatDirective_pageDirective_no_newline :
    pageDirective.length = 102 ∧
    ((formatDirective pageDirective).contains '\n') = false := by
  refine ⟨by decide, by decide⟩

/-- C4 (amended): `formatDirective` returns the Scenario A directive unchanged
(its collapsed length 102 is at most the 120-column threshold); a variant
lengthened past 120 columns by a fifth attribute pair does reformat to the
multi-line shape: opener line, one indented attribute per line, closer
appended to the last line. -/
theorem formatDirective_pageDirective_single_line :
    formatDirective pageDirective = pageDirective ∧
    formatDirective pageDirectiveLong = pageDirectiveLongExpected := by
  refine ⟨by decide, by decide⟩

/-- C5: on input `a` (which ends in non-whitespace) `formatJsp` returns `a`
unchanged: the final step only rewrites an existing trailing-whitespace run
to a newline and adds nothing otherwise, so the output does not end with a
newline. -/
theorem formatJsp_no_trailing_newline_on_plain_text :
    formatJsp (("a".data)) stdOpts = ("a".data) ∧
    (formatJsp (("a".data)) stdOpts).getLast? ≠ some '\n' := by
  refine ⟨by decide, by decide⟩

/-- C6 (counterexample): `malformedDirective` collapses to 128 characters
(> 120) and fails the `<%@ name attrs %>` pattern, but `formatDirective`
returns the whitespace-collapsed content, not the original block text —
the original contains a newline that the result does not. -/
theorem formatDirective_malformed_changes_original :
    120 < (dirContent malformedDirective).length ∧
    dirHeadMatch (dirContent malformedDirective) = none ∧
    formatDirective malformedDirective ≠ malformedDirective := by
  refine ⟨by decide, by decide, by decide⟩

/-- C6 (amended): for every directive block whose whitespace-collapsed content
exceeds 120 columns and fails the `<%@ name attrs %>` pattern,
`formatDirective` falls back to returning that collapsed, trimmed content
unchanged (and, being a total function, never throws). -/
theorem formatDirective_malformed_fallback (d : List Char)
    (h1 : 120 < (dirContent d).length)
    (h2 : dirHeadMatch (dirContent d) = none) :
    formatDirective d = dirContent d := by
  unfold formatDirective
  rw [if_neg (by omega), h2]

/-- Witness for C6: the fallback theorem applied to `malformedDirective`. -/
theorem formatDirective_malformed_fallback_witness :
    120 < (dirContent malformedDirective).length ∧
    formatDirective malformedDirective = dirContent malformedDirective :=
  ⟨by decide, formatDirective_malformed_fallback malformedDirective (by decide) (by decide)⟩

/-- C7: any scriptlet or declaration block whose inner content has no line
break, is shorter than 60 characters, contains no opening brace, and has at
most one semicolon is returned by `formatJspBlock` with the content
unchanged on a single line between the block delimiters. -/
theorem formatJspBlock_short_circuit (block : List Char) (o : FormatOptions)
    (h1 : (jspBlockContent block).contains '\n' = false)
    (h2 : (jspBlockContent block).length < 60)
    (h3 : (jspBlockContent block).contains lbraceChar = false)
    (h4 : countCh ';' (jspBlockContent block) ≤ 1) :
    formatJspBlock block o =
      jspBlockPfx block ++ ' ' :: (jspBlockContent block ++ (" %>".data)) := by
  have hc : (!(jspBlockContent block).contains '\n' &&
      decide ((jspBlockContent block).length < 60) &&
      !(jspBlockContent block).contains lbraceChar &&
      decide (countCh ';' (jspBlockContent block) ≤ 1)) = true := by
    rw [h1, h3]
    simp [h2, h4]
  unfold formatJspBlock
  dsimp only
  rw [hc]
  rfl

/-- Witness for C7: the Scenario C scriptlet `<% int x = 1; %>` satisfies all
four side conditions and stays on one line, both through `formatJspBlock`
directly and through the whole `formatJsp` pipeline. -/
theorem formatJspBlock_short_circuit_witness :
    (jspBlockContent shortScriptlet).contains '\n' = false ∧
    (jspBlockContent shortScriptlet).length < 60 ∧
    (jspBlockContent shortScriptlet).contains lbraceChar = false ∧
    countCh ';' (jspBlockContent shortScriptlet) ≤ 1 ∧
    formatJspBlock shortScriptlet stdOpts = shortScriptlet ∧
    formatJsp shortScriptlet stdOpts = shortScriptlet := by
  refine ⟨by decide, by decide, by decide, by decide, ?_, by decide⟩
  rw [formatJspBlock_short_circuit shortScriptlet stdOpts (by decide) (by decide)
    (by decide) (by decide)]
  decide

/-- C8 (counterexample): `dirWithBlankRun` contains a run of 5 blank lines,
but the run lies inside a directive block, whose transform collapses all
whitespace: the output contains no newline at all, not 2 blank lines. -/
theorem formatJsp_blank_run_in_directive_vanishes :
    formatJsp dirWithBlankRun stdOpts = ("<%@ page a=\"b\" %>".data) ∧
    ((formatJsp dirWithBlankRun stdOpts).contains '\n') = false := by
  refine ⟨by decide, by decide⟩

/-- C8 (amended): with `preserveNewlines` and `maxPreserveNewlines = 2`, a run
of 5 consecutive blank lines that survives region extraction — here between
two plain text lines — is collapsed to exactly 2 blank lines. -/
theorem formatJsp_blank_run_capped_concrete :
    formatJsp textWithBlankRun stdOpts = ("x\n\n\ny".data) := by
  decide

/-- C9: lines consisting solely of a void-element open tag (`<br>`, `<hr>`,
`<img ...>`, `<input ...>`) or of a listed single-tag custom element
(`<jsp:param .../>`, `<c:out ...>`) neither decrement the depth at emission
nor increment it afterwards, so subsequent sibling lines are emitted at the
same indentation level. -/
theorem void_tag_lines_keep_level : ∀ level : Int,
    (structEmitLevel level (("<br>".data)) = level ∧
      structNextLevel level (("<br>".data)) = level) ∧
    (structEmitLevel level (("<hr>".data)) = level ∧
      structNextLevel level (("<hr>".data)) = level) ∧
    (structEmitLevel level (("<img src=\"x.png\">".data)) = level ∧
      structNextLevel level (("<img src=\"x.png\">".data)) = level) ∧
    (structEmitLevel level (("<input type=\"text\">".data)) = level ∧
      structNextLevel level (("<input type=\"text\">".data)) = level) ∧
    (structEmitLevel level (("<jsp:param name=\"a\" value=\"b\"/>".data)) = level ∧
      structNextLevel level (("<jsp:param name=\"a\" value=\"b\"/>".data)) = level) ∧
    (structEmitLevel level (("<c:out value=\"y\">".data)) = level ∧
      structNextLevel level (("<c:out value=\"y\">".data)) = level) := by
  intro level
  exact ⟨voidStepAux _ (by decide) (by decide) level,
    voidStepAux _ (by decide) (by decide) level,
    voidStepAux _ (by decide) (by decide) level,
    voidStepAux _ (by decide) (by decide) level,
    voidStepAux _ (by decide) (by decide) level,
    voidStepAux _ (by decide) (by decide) level⟩

/-- C10: the brace-depth counter of the indentation loop of `formatJavaCode`,
started at 1, never drops below 1 (decrements are clamped at 1), and
consequently every non-blank emitted line carries at least one unit of
indentation (the indent string is a prefix of the line). -/
theorem javaIndent_min_level_one : ∀ (ind : List Char) (lines : List (List Char)),
    ((javaLevels 1 lines).all fun x => decide (1 ≤ x)) = true ∧
    ((javaIndentGo ind 1 lines).all fun l => l.isEmpty || ind.isPrefixOf l) = true := by
  intro ind lines
  constructor
  · rw [List.all_eq_true]
    intro x hx
    rw [decide_eq_true_eq]
    exact javaLevels_ge_one_aux lines 1 (le_refl 1) x hx
  · rw [List.all_eq_true]
    intro l hl
    rcases javaIndentGo_indent_aux ind lines 1 (le_refl 1) l hl with rfl | hp
    · rfl
    · simp [hp]

end JspFmt
